import Mathlib

/-!
Verification development for the backtest-report browser.

The development shallowly embeds the storage-agnostic core of the repository:

* the artifact classifier, in its local-filesystem form (function
  find_backtest_files of src/utils.py, whose input enumeration is a glob over
  a folder) and in its object-store form (function find_backtest_files_s3 of
  src/s3_utils.py, whose input enumeration is an object listing);
* the log compactor (parse_log_file of src/utils.py and parse_log_file_s3 of
  src/s3_utils.py), including the line-splitting behaviour of the two
  backends: the local parser reads the file in text mode (universal-newline
  translation) and right-strips every line, while the object-store parser
  applies Python splitlines to the decoded content;
* the object-store path helpers normalize_path and parse_s3_path.

Paths, lines and texts are modelled as List Char.  I/O (the glob call, the
boto3 listing, file reads) belongs to the storage collaborator and is out of
scope; the classifiers are modelled as functions of the enumerated entry
list and the parsers as functions of the raw text content.
-/

/-- Final path component: the longest slash-free suffix of the path, as
computed by os.path.basename for POSIX paths. -/
def basename (p : List Char) : List Char :=
  (p.reverse.takeWhile (fun c => c != '/')).reverse

/-- Entry matched by a glob over pattern *.json: the name (final component)
ends in .json and, per glob's hidden-file rule, does not begin with a dot. -/
def globJsonB (f : List Char) : Bool :=
  ".json".data.isSuffixOf (basename f) && !(".".data.isPrefixOf (basename f))

/-- Entry matched by a glob over pattern *.txt (same hidden-file rule). -/
def globTxtB (f : List Char) : Bool :=
  ".txt".data.isSuffixOf (basename f) && !(".".data.isPrefixOf (basename f))

/-- The basename starts with data-monitor-report. -/
def startsMonitorB (f : List Char) : Bool :=
  "data-monitor-report".data.isPrefixOf (basename f)

/-- The basename starts with failed-data-requests. -/
def startsFailedB (f : List Char) : Bool :=
  "failed-data-requests".data.isPrefixOf (basename f)

/-- The basename starts with succeeded-data-requests. -/
def startsSucceededB (f : List Char) : Bool :=
  "succeeded-data-requests".data.isPrefixOf (basename f)

/-- The full path ends with -summary.json. -/
def sufSummaryB (f : List Char) : Bool :=
  "-summary.json".data.isSuffixOf f

/-- The full path ends with -order-events.json. -/
def sufOrderEventsB (f : List Char) : Bool :=
  "-order-events.json".data.isSuffixOf f

/-- The full path ends with -log.txt. -/
def sufLogB (f : List Char) : Bool :=
  "-log.txt".data.isSuffixOf f

/-- Result of the classifiers: one ordered sequence of entry paths per
category, mirroring the dictionary returned by both implementations. -/
structure ClassifiedFiles where
  main : List (List Char)
  summary : List (List Char)
  order_events : List (List Char)
  monitor_report : List (List Char)
  log : List (List Char)
  failed_data_requests : List (List Char)
  succeeded_data_requests : List (List Char)
deriving DecidableEq

/-- Local classifier (src/utils.py, find_backtest_files).  The folder
enumeration is abstracted as the entries list; all_json and all_txt are the
two glob results, and each category filters them exactly as the Python list
comprehensions do (endswith on the full path, startswith on the basename). -/
def find_backtest_files (entries : List (List Char)) : ClassifiedFiles :=
  let all_json := entries.filter globJsonB
  let main_json := all_json.filter fun f =>
    !(sufSummaryB f || sufOrderEventsB f || startsMonitorB f)
  let summary_json := all_json.filter fun f => sufSummaryB f
  let order_events_json := all_json.filter fun f => sufOrderEventsB f
  let monitor_report_json := all_json.filter fun f => startsMonitorB f
  let all_txt := entries.filter globTxtB
  let log_txt := all_txt.filter fun f => sufLogB f
  let failed_data_requests_txt := all_txt.filter fun f => startsFailedB f
  let succeeded_data_requests_txt := all_txt.filter fun f => startsSucceededB f
  ⟨main_json, summary_json, order_events_json, monitor_report_json, log_txt,
    failed_data_requests_txt, succeeded_data_requests_txt⟩

/-- Object-store classifier (src/s3_utils.py, find_backtest_files_s3).  The
paginated listing is abstracted as the all_files list; the categories filter
it directly, with no glob step, exactly as the Python code does (note that
the three startswith categories lack the extension requirement that the
local glob step imposes). -/
def find_backtest_files_s3 (all_files : List (List Char)) : ClassifiedFiles :=
  ⟨all_files.filter fun f =>
      ".json".data.isSuffixOf f &&
        !(sufSummaryB f || sufOrderEventsB f || startsMonitorB f),
   all_files.filter fun f => sufSummaryB f,
   all_files.filter fun f => sufOrderEventsB f,
   all_files.filter fun f => startsMonitorB f,
   all_files.filter fun f => sufLogB f,
   all_files.filter fun f => startsFailedB f,
   all_files.filter fun f => startsSucceededB f⟩

/-- The seven category sequences in dictionary order. -/
def catListOf (r : ClassifiedFiles) : List (List (List Char)) :=
  [r.main, r.summary, r.order_events, r.monitor_report, r.log,
   r.failed_data_requests, r.succeeded_data_requests]

/-- Sum of the category sequence lengths. -/
def totalLen (r : ClassifiedFiles) : Nat :=
  r.main.length + r.summary.length + r.order_events.length +
    r.monitor_report.length + r.log.length + r.failed_data_requests.length +
    r.succeeded_data_requests.length

/-- Concatenation of all category sequences, in dictionary order. -/
def concatCats (r : ClassifiedFiles) : List (List Char) :=
  r.main ++ r.summary ++ r.order_events ++ r.monitor_report ++ r.log ++
    r.failed_data_requests ++ r.succeeded_data_requests

/-- Whitespace as Python defines it for str.isspace, str.rstrip and the
whitespace class of the re module on str. -/
def pyIsSpace (c : Char) : Bool :=
  c = ' ' || c = '\t' || c = '\n' || c = '\x0b' || c = '\x0c' || c = '\r' ||
  c = '\x1c' || c = '\x1d' || c = '\x1e' || c = '\x1f' || c = '\x85' ||
  c = '\xa0' || c = ' ' || (' ' ≤ c && c ≤ ' ') ||
  c = ' ' || c = ' ' || c = ' ' || c = ' ' || c = '　'

/-- Line-boundary characters of Python str.splitlines (the CR LF pair is
handled separately as a single boundary). -/
def isLineBoundary (c : Char) : Bool :=
  c = '\n' || c = '\r' || c = '\x0b' || c = '\x0c' || c = '\x1c' ||
  c = '\x1d' || c = '\x1e' || c = '\x85' || c = ' ' || c = ' '

/-- Python str.rstrip with no argument: remove all trailing whitespace. -/
def pyRstrip (cs : List Char) : List Char :=
  (cs.reverse.dropWhile pyIsSpace).reverse

/-- Universal-newline translation performed when a file is opened in text
mode: CR LF and lone CR both become LF. -/
def univNl : List Char → List Char
  | [] => []
  | '\r' :: '\n' :: rest => '\n' :: univNl rest
  | '\r' :: rest => '\n' :: univNl rest
  | c :: rest => c :: univNl rest

/-- Worker for pyReadlines; the accumulator holds the current line reversed. -/
def readlinesAux : List Char → List Char → List (List Char)
  | [], acc => if acc = [] then [] else [acc.reverse]
  | c :: rest, acc =>
    if c = '\n' then (c :: acc).reverse :: readlinesAux rest []
    else readlinesAux rest (c :: acc)

/-- Python file.readlines: split after every LF, keeping the LF in the line;
a final segment without LF is kept when nonempty. -/
def pyReadlines (cs : List Char) : List (List Char) :=
  readlinesAux cs []

/-- Worker for pySplitlines; the accumulator holds the current line reversed. -/
def splitlinesAux : List Char → List Char → List (List Char)
  | [], acc => if acc = [] then [] else [acc.reverse]
  | '\r' :: '\n' :: rest, acc => acc.reverse :: splitlinesAux rest []
  | c :: rest, acc =>
    if isLineBoundary c then acc.reverse :: splitlinesAux rest []
    else splitlinesAux rest (c :: acc)

/-- Python str.splitlines: split at every line boundary, dropping the
boundary characters; CR LF counts as one boundary. -/
def pySplitlines (cs : List Char) : List (List Char) :=
  splitlinesAux cs []

/-- Shape check for the fixed timestamp format of the log-line regex: four
digits, dash, two digits, dash, two digits, space, two digits, colon, two
digits, colon, two digits (nineteen characters). -/
def tsShape (cs : List Char) : Bool :=
  match cs with
  | [y1, y2, y3, y4, h1, mo1, mo2, h2, d1, d2, sp, hh1, hh2, c1, mi1, mi2,
     c2, ss1, ss2] =>
    y1.isDigit && y2.isDigit && y3.isDigit && y4.isDigit && h1 = '-' &&
    mo1.isDigit && mo2.isDigit && h2 = '-' && d1.isDigit && d2.isDigit &&
    sp = ' ' && hh1.isDigit && hh2.isDigit && c1 = ':' && mi1.isDigit &&
    mi2.isDigit && c2 = ':' && ss1.isDigit && ss2.isDigit
  | _ => false

/-- One log line split by the anchored regex of both parsers: a nineteen
character timestamp, at least one whitespace character (consumed greedily),
then the event text, in which the dot atom does not match LF while the
dollar anchor tolerates one trailing LF.  A non-matching line yields an
empty timestamp and the whole line as the event. -/
def parseLine (line : List Char) : List Char × List Char :=
  let ts := line.take 19
  let rest := line.drop 19
  if tsShape ts && (match rest with | c :: _ => pyIsSpace c | [] => false) then
    let ev := rest.dropWhile pyIsSpace
    let ev2 := if ev.getLast? = some '\n' then ev.dropLast else ev
    if '\n' ∈ ev2 then ([], line) else (ts, ev2)
  else ([], line)

/-- One output record of the compactor: the dictionary with keys datetime
and event that both parsers append. -/
structure LogEntry where
  datetime : List Char
  event : List Char
deriving DecidableEq

/-- Loop state of the compactor: last_event is None before the first line;
last_start and last_end are the timestamp strings of the current run. -/
structure CompactState where
  last_event : Option (List Char)
  last_start : List Char
  last_end : List Char
deriving DecidableEq

/-- Range formatting at the close of a run: start, three dots, end when both
are nonempty and differ; otherwise last_start or the empty string (Python
truthiness, so an empty last_start yields the empty string even when
last_end is nonempty). -/
def fmtRange (s e : List Char) : List Char :=
  if s ≠ [] ∧ e ≠ [] ∧ s ≠ e then s ++ " ... ".data ++ e else s

/-- Emit the entry for the run in progress, if any (the Python code guards
the append with last_event is not None). -/
def closeRun (st : CompactState) : List LogEntry :=
  match st.last_event with
  | none => []
  | some ev => [⟨fmtRange st.last_start st.last_end, ev⟩]

/-- The shared loop body of parse_log_file and parse_log_file_s3 (the two
sources contain the identical statement sequence): group consecutive lines
with equal event text, extending last_end only by nonempty timestamps, and
emit the previous run whenever the event changes; the final run is emitted
after the loop. -/
def compactAux (st : CompactState) : List (List Char) → List LogEntry
  | [] => closeRun st
  | line :: rest =>
    let dt := (parseLine line).1
    let event := (parseLine line).2
    if st.last_event = some event then
      compactAux { st with last_end := if dt ≠ [] then dt else st.last_end } rest
    else
      closeRun st ++ compactAux ⟨some event, dt, dt⟩ rest

/-- Local log parser (src/utils.py, parse_log_file): read the file in text
mode (universal newlines), take the first n_lines lines of readlines, right
strip each, then run the grouping loop. -/
def parse_log_file (text : List Char) (n_lines : Nat) : List LogEntry :=
  compactAux ⟨none, [], []⟩
    (((pyReadlines (univNl text)).take n_lines).map pyRstrip)

/-- Object-store log parser (src/s3_utils.py, parse_log_file_s3): splitlines
on the decoded content, take the first n_lines lines, then run the grouping
loop. -/
def parse_log_file_s3 (text : List Char) (n_lines : Nat) : List LogEntry :=
  compactAux ⟨none, [], []⟩ ((pySplitlines text).take n_lines)

/-- Test used by the while condition of normalize_path: does the path
contain two adjacent slashes. -/
def hasDoubleSlash : List Char → Bool
  | [] => false
  | c :: rest => (c = '/' && rest.head? = some '/') || hasDoubleSlash rest

/-- One pass of Python str.replace with a double slash replaced by a single
slash: left-to-right, non-overlapping. -/
def replaceDS : List Char → List Char
  | [] => []
  | '/' :: '/' :: rest2 => '/' :: replaceDS rest2
  | c :: rest => c :: replaceDS rest

/-- The while loop of normalize_path: replace double slashes until none
remain.  Termination: each pass strictly shortens the path while a double
slash is present. -/
def collapseLoop (cs : List Char) : List Char :=
  if h : hasDoubleSlash cs = true then collapseLoop (replaceDS cs) else cs
termination_by cs.length
decreasing_by
  revert h
  induction cs using replaceDS.induct with
  | case1 => intro h; simp [hasDoubleSlash] at h
  | case2 rest2 ih =>
    intro _
    have hle : ∀ t : List Char, (replaceDS t).length ≤ t.length := by
      intro t
      induction t using replaceDS.induct with
      | case1 => simp [replaceDS]
      | case2 r2 ih2 => simp [replaceDS]; omega
      | case3 c r h3 ih2 => simpa [replaceDS] using ih2
    have := hle rest2
    simp [replaceDS]
    omega
  | case3 c rest h3 ih =>
    intro h
    simp only [hasDoubleSlash, Bool.or_eq_true, Bool.and_eq_true] at h
    rcases h with ⟨hc, hh⟩ | hr
    · cases rest with
      | nil => simp at hh
      | cons a t =>
        have ha : a = '/' := by simpa using hh
        exact (h3 t (by simpa using hc) (by rw [ha])).elim
    · have hlt := ih hr
      simp [replaceDS]
      omega

/-- Path normalization (src/s3_utils.py, normalize_path): collapse runs of
slashes by repeated replacement, then strip one trailing slash. -/
def normalize_path (path : List Char) : List Char :=
  let collapsed := collapseLoop path
  if ['/'].isSuffixOf collapsed then collapsed.dropLast else collapsed

/-- Object-store path parsing (src/s3_utils.py, parse_s3_path): none models
the raised ValueError when the scheme marker is absent; otherwise the text
after the marker is split at its first slash into the bucket and the raw
remainder (the join of the remaining split segments), and the remainder is
normalized. -/
def parse_s3_path (s3_path : List Char) : Option (List Char × List Char) :=
  if "s3://".data.isPrefixOf s3_path then
    let path_without_protocol := s3_path.drop 5
    let bucket := path_without_protocol.takeWhile (fun c => c != '/')
    let raw := (path_without_protocol.dropWhile (fun c => c != '/')).drop 1
    some (bucket, normalize_path raw)
  else none

/-- Whether the pair of adjacent text characters a, b is compatible with
identical line splitting by the two backends: a whitespace character other
than LF must not stand immediately before an LF, since rstrip would remove
it from the local line while splitlines keeps it. -/
def okPairB (a b : Char) : Bool :=
  if b = '\n' then !(pyIsSpace a && !(a = '\n')) else true

/-- Whether the final character of the text (if any) is compatible with
identical line splitting by the two backends: it must not be a whitespace
character other than LF. -/
def noTrailBad (xs : List Char) : Bool :=
  match xs.getLast? with
  | none => true
  | some c => !(pyIsSpace c && !(c = '\n'))

/-- Conjunction of okPairB over all adjacent pairs of the text. -/
def okPairsB : List Char → Bool
  | a :: b :: rest => okPairB a b && okPairsB (b :: rest)
  | _ => true

/-- Combined membership predicate of the local main category: matched by the
json glob and by none of the three exclusion rules. -/
def isMainB (f : List Char) : Bool :=
  globJsonB f && !(sufSummaryB f || sufOrderEventsB f || startsMonitorB f)

/-- Combined membership predicate of the local summary category. -/
def isSummaryB (f : List Char) : Bool :=
  globJsonB f && sufSummaryB f

/-- Combined membership predicate of the local order_events category. -/
def isOrderEventsB (f : List Char) : Bool :=
  globJsonB f && sufOrderEventsB f

/-- Combined membership predicate of the local monitor_report category. -/
def isMonitorReportB (f : List Char) : Bool :=
  globJsonB f && startsMonitorB f

/-- Combined membership predicate of the local log category. -/
def isLogB (f : List Char) : Bool :=
  globTxtB f && sufLogB f

/-- Combined membership predicate of the local failed_data_requests
category. -/
def isFailedB (f : List Char) : Bool :=
  globTxtB f && startsFailedB f

/-- Combined membership predicate of the local succeeded_data_requests
category. -/
def isSucceededB (f : List Char) : Bool :=
  globTxtB f && startsSucceededB f

/-! ## Generic facts about the compaction loop -/

/-- From a state with a run in progress for event e, the first entry the
loop emits (at the next event change or at the end of input) carries event
e: same-event lines never change last_event. -/
theorem compactAux_head_of_some :
    ∀ (lines : List (List Char)) (st : CompactState) (e : List Char),
      st.last_event = some e →
      ∃ d tl, compactAux st lines = ⟨d, e⟩ :: tl := by
  intro lines
  induction lines with
  | nil =>
    intro st e h
    refine ⟨fmtRange st.last_start st.last_end, [], ?_⟩
    simp [compactAux, closeRun, h]
  | cons line rest ih =>
    intro st e h
    simp only [compactAux]
    by_cases hc : st.last_event = some (parseLine line).2
    · rw [if_pos hc]
      exact ih _ e h
    · rw [if_neg hc]
      simp only [closeRun, h]
      obtain ⟨d, tl, htl⟩ :=
        ih ⟨some (parseLine line).2, (parseLine line).1, (parseLine line).1⟩
          (parseLine line).2 rfl
      exact ⟨fmtRange st.last_start st.last_end, ⟨d, (parseLine line).2⟩ :: tl,
        by rw [htl]; rfl⟩

/-- From a state whose run began with an empty timestamp, the entry emitted
for that run has an empty datetime, no matter what later lines of the run
contain: same-event lines never change last_start, and the range formatter
returns last_start (here empty) whenever last_start is empty. -/
theorem compactAux_head_of_empty_start :
    ∀ (lines : List (List Char)) (st : CompactState) (e : List Char),
      st.last_event = some e → st.last_start = [] →
      ∃ tl, compactAux st lines = ⟨[], e⟩ :: tl := by
  intro lines
  induction lines with
  | nil =>
    intro st e h hs
    refine ⟨[], ?_⟩
    simp [compactAux, closeRun, h, hs, fmtRange]
  | cons line rest ih =>
    intro st e h hs
    simp only [compactAux]
    by_cases hc : st.last_event = some (parseLine line).2
    · rw [if_pos hc]
      exact ih _ e h hs
    · rw [if_neg hc]
      simp only [closeRun, h, hs, fmtRange]
      exact ⟨compactAux ⟨some (parseLine line).2, (parseLine line).1,
        (parseLine line).1⟩ rest, by simp⟩

/-- The loop emits at most one entry per consumed line, plus the entry for
the run which is open on entry. -/
theorem compactAux_length_le :
    ∀ (lines : List (List Char)) (st : CompactState),
      (compactAux st lines).length ≤ lines.length + (closeRun st).length := by
  intro lines
  induction lines with
  | nil => intro st; simp [compactAux]
  | cons line rest ih =>
    intro st
    simp only [compactAux]
    by_cases hc : st.last_event = some (parseLine line).2
    · rw [if_pos hc]
      have h1 := ih { st with last_end :=
        if (parseLine line).1 ≠ [] then (parseLine line).1 else st.last_end }
      have h2 : (closeRun { st with last_end :=
          if (parseLine line).1 ≠ [] then (parseLine line).1 else st.last_end
            }).length ≤ 1 := by
        simp only [closeRun]
        cases st.last_event <;> simp
      have h3 : (closeRun st).length = 1 := by simp [closeRun, hc]
      simp only [List.length_cons, h3]
      omega
    · rw [if_neg hc]
      have h1 := ih ⟨some (parseLine line).2, (parseLine line).1,
        (parseLine line).1⟩
      have h2 : (closeRun (⟨some (parseLine line).2, (parseLine line).1,
          (parseLine line).1⟩ : CompactState)).length = 1 := by
        simp [closeRun]
      simp only [List.length_append, List.length_cons]
      omega

/-- Adjacent entries of the loop output always carry different event texts:
an entry is emitted only at an event change, and the next emitted entry
carries the event that caused the change. -/
theorem compactAux_chain :
    ∀ (lines : List (List Char)) (st : CompactState),
      List.Chain' (fun a b : LogEntry => a.event ≠ b.event)
        (compactAux st lines) := by
  intro lines
  induction lines with
  | nil =>
    intro st
    simp only [compactAux, closeRun]
    cases st.last_event <;> simp
  | cons line rest ih =>
    intro st
    simp only [compactAux]
    by_cases hc : st.last_event = some (parseLine line).2
    · rw [if_pos hc]; exact ih _
    · rw [if_neg hc]
      cases h : st.last_event with
      | none => simpa [closeRun, h] using ih ⟨some (parseLine line).2,
          (parseLine line).1, (parseLine line).1⟩
      | some e =>
        simp only [closeRun, h]
        obtain ⟨d, tl, htl⟩ := compactAux_head_of_some rest
          ⟨some (parseLine line).2, (parseLine line).1, (parseLine line).1⟩
          (parseLine line).2 rfl
        have hch := ih (⟨some (parseLine line).2, (parseLine line).1,
          (parseLine line).1⟩ : CompactState)
        rw [htl] at hch ⊢
        rw [List.singleton_append]
        refine List.chain'_cons'.mpr ⟨?_, hch⟩
        intro y hy
        simp only [List.head?_cons, Option.mem_def, Option.some.injEq] at hy
        subst hy
        intro hee
        exact hc (h.trans (congrArg some hee))

/-! ## Claim theorems about the compactor -/

/-- C4.  Compaction consecutive-merge: on the three lines of the spec
example, with any limit of at least 3, both parsers return exactly the
merged range entry for A followed by the single-timestamp entry for B. -/
theorem compaction_consecutive_merge :
    ∀ n : Nat, 3 ≤ n →
      parse_log_file
          "2024-01-01 00:00:00 A\n2024-01-01 00:00:01 A\n2024-01-01 00:00:05 B".data
          n =
        [⟨"2024-01-01 00:00:00 ... 2024-01-01 00:00:01".data, "A".data⟩,
         ⟨"2024-01-01 00:00:05".data, "B".data⟩] ∧
      parse_log_file_s3
          "2024-01-01 00:00:00 A\n2024-01-01 00:00:01 A\n2024-01-01 00:00:05 B".data
          n =
        [⟨"2024-01-01 00:00:00 ... 2024-01-01 00:00:01".data, "A".data⟩,
         ⟨"2024-01-01 00:00:05".data, "B".data⟩] := by
  intro n hn
  constructor
  · unfold parse_log_file
    rw [show pyReadlines (univNl
        "2024-01-01 00:00:00 A\n2024-01-01 00:00:01 A\n2024-01-01 00:00:05 B".data) =
        ["2024-01-01 00:00:00 A\n".data, "2024-01-01 00:00:01 A\n".data,
         "2024-01-01 00:00:05 B".data] from by decide,
      List.take_of_length_le (by simpa using hn)]
    decide
  · unfold parse_log_file_s3
    rw [show pySplitlines
        "2024-01-01 00:00:00 A\n2024-01-01 00:00:01 A\n2024-01-01 00:00:05 B".data =
        ["2024-01-01 00:00:00 A".data, "2024-01-01 00:00:01 A".data,
         "2024-01-01 00:00:05 B".data] from by decide,
      List.take_of_length_le (by simpa using hn)]
    decide

/-- C4 witness: the theorem instantiated at limit 3. -/
theorem compaction_consecutive_merge_witness :
    parse_log_file
        "2024-01-01 00:00:00 A\n2024-01-01 00:00:01 A\n2024-01-01 00:00:05 B".data
        3 =
      [⟨"2024-01-01 00:00:00 ... 2024-01-01 00:00:01".data, "A".data⟩,
       ⟨"2024-01-01 00:00:05".data, "B".data⟩] ∧
    parse_log_file_s3
        "2024-01-01 00:00:00 A\n2024-01-01 00:00:01 A\n2024-01-01 00:00:05 B".data
        3 =
      [⟨"2024-01-01 00:00:00 ... 2024-01-01 00:00:01".data, "A".data⟩,
       ⟨"2024-01-01 00:00:05".data, "B".data⟩] :=
  compaction_consecutive_merge 3 (Nat.le_refl 3)

/-- C5.  Empty-rangeStart quirk: whenever a new run starts at a line with no
parseable timestamp (parseLine returns an empty timestamp), the entry that
the compactor eventually emits for that run has the empty string as its
datetime, whatever the later lines of the run contain — in particular a
nonempty last_end picked up later in the run is discarded, not emitted
alone. -/
theorem empty_range_start_quirk :
    ∀ (st : CompactState) (line : List Char) (rest : List (List Char))
      (ev : List Char),
      parseLine line = ([], ev) → st.last_event ≠ some ev →
      ∃ tl, compactAux st (line :: rest) = closeRun st ++ ⟨[], ev⟩ :: tl := by
  intro st line rest ev hp hne
  have h1 : (parseLine line).1 = [] := by rw [hp]
  have h2 : (parseLine line).2 = ev := by rw [hp]
  simp only [compactAux, h1, h2]
  rw [if_neg hne]
  obtain ⟨tl, htl⟩ :=
    compactAux_head_of_empty_start rest ⟨some ev, [], []⟩ ev rfl rfl
  exact ⟨tl, by rw [htl]⟩

/-- C5 witness: a run started by a timestampless line and extended by a line
that does carry a timestamp still yields an empty datetime. -/
theorem empty_range_start_quirk_witness :
    ∃ tl, compactAux ⟨none, [], []⟩
        ["A".data, "2024-01-01 00:00:00 A".data] =
      closeRun ⟨none, [], []⟩ ++ ⟨[], "A".data⟩ :: tl :=
  empty_range_start_quirk ⟨none, [], []⟩ "A".data
    ["2024-01-01 00:00:00 A".data] "A".data (by decide) (by decide)

/-- C6.  Limit respected: each parser's output is a function of the first
n_lines lines of its input text (two texts whose first n_lines lines agree
yield identical output), and the number of emitted entries never exceeds
n_lines. -/
theorem limit_respected :
    (∀ (t₁ t₂ : List Char) (n : Nat),
        (pyReadlines (univNl t₁)).take n = (pyReadlines (univNl t₂)).take n →
        parse_log_file t₁ n = parse_log_file t₂ n) ∧
    (∀ (t₁ t₂ : List Char) (n : Nat),
        (pySplitlines t₁).take n = (pySplitlines t₂).take n →
        parse_log_file_s3 t₁ n = parse_log_file_s3 t₂ n) ∧
    (∀ (t : List Char) (n : Nat), (parse_log_file t n).length ≤ n) ∧
    (∀ (t : List Char) (n : Nat), (parse_log_file_s3 t n).length ≤ n) := by
  refine ⟨?_, ?_, ?_, ?_⟩
  · intro t₁ t₂ n h
    unfold parse_log_file
    rw [h]
  · intro t₁ t₂ n h
    unfold parse_log_file_s3
    rw [h]
  · intro t n
    have h1 := compactAux_length_le
      (((pyReadlines (univNl t)).take n).map pyRstrip) ⟨none, [], []⟩
    have h2 : ((closeRun ⟨none, [], []⟩ : List LogEntry)).length = 0 := rfl
    have h3 : (((pyReadlines (univNl t)).take n).map pyRstrip).length ≤ n := by
      simp only [List.length_map, List.length_take]
      omega
    unfold parse_log_file
    omega
  · intro t n
    have h1 := compactAux_length_le ((pySplitlines t).take n) ⟨none, [], []⟩
    have h2 : ((closeRun ⟨none, [], []⟩ : List LogEntry)).length = 0 := rfl
    have h3 : ((pySplitlines t).take n).length ≤ n := by
      simp only [List.length_take]
      omega
    unfold parse_log_file_s3
    omega

/-- C6 witness: the theorem applied to two texts agreeing on their first
line, and a length instance. -/
theorem limit_respected_witness :
    parse_log_file "x\ny".data 1 = parse_log_file "x\nz".data 1 ∧
    (parse_log_file_s3 "abc".data 2).length ≤ 2 :=
  ⟨limit_respected.1 "x\ny".data "x\nz".data 1 (by decide),
   limit_respected.2.2.2 "abc".data 2⟩

/-- C10.  Non-adjacent duplicates stay separate: both parsers group only
consecutive equal events, so adjacent output entries always differ in event
text, and the three lines A, B, A of the spec example produce exactly three
entries. -/
theorem nonadjacent_duplicates_separate :
    (∀ (t : List Char) (n : Nat),
        List.Chain' (fun a b : LogEntry => a.event ≠ b.event)
          (parse_log_file t n)) ∧
    (∀ (t : List Char) (n : Nat),
        List.Chain' (fun a b : LogEntry => a.event ≠ b.event)
          (parse_log_file_s3 t n)) ∧
    parse_log_file
        "2024-01-01 00:00:00 A\n2024-01-01 00:00:01 B\n2024-01-01 00:00:02 A".data
        3 =
      [⟨"2024-01-01 00:00:00".data, "A".data⟩,
       ⟨"2024-01-01 00:00:01".data, "B".data⟩,
       ⟨"2024-01-01 00:00:02".data, "A".data⟩] ∧
    parse_log_file_s3
        "2024-01-01 00:00:00 A\n2024-01-01 00:00:01 B\n2024-01-01 00:00:02 A".data
        3 =
      [⟨"2024-01-01 00:00:00".data, "A".data⟩,
       ⟨"2024-01-01 00:00:01".data, "B".data⟩,
       ⟨"2024-01-01 00:00:02".data, "A".data⟩] :=
  ⟨fun _ _ => compactAux_chain _ _, fun _ _ => compactAux_chain _ _,
   by decide, by decide⟩

/-! ## Line splitting: local backend versus object-store backend -/

/-- Right-stripping a reversed accumulator that sheds no whitespace is the
identity. -/
theorem pyRstrip_of_nodrop (acc : List Char)
    (h : acc.dropWhile pyIsSpace = acc) :
    pyRstrip acc.reverse = acc.reverse := by
  unfold pyRstrip
  rw [List.reverse_reverse, h]

/-- Right-stripping a line that ends in LF removes exactly the LF when the
rest of the line sheds no whitespace. -/
theorem pyRstrip_snoc_newline (acc : List Char)
    (h : acc.dropWhile pyIsSpace = acc) :
    pyRstrip (('\n' :: acc).reverse) = acc.reverse := by
  unfold pyRstrip
  rw [List.reverse_reverse, List.dropWhile_cons_of_pos (by decide), h]

/-- The final-character condition only depends on the nonempty tail of an
append. -/
theorem noTrailBad_append (xs ys : List Char) (h : ys ≠ []) :
    noTrailBad (xs ++ ys) = noTrailBad ys := by
  unfold noTrailBad
  rw [List.getLast?_append]
  cases hy : ys.getLast? with
  | none => exact absurd (by simpa using hy) h
  | some v => simp

/-- Universal-newline translation is the identity on CR-free text. -/
theorem univNl_id : ∀ t : List Char, (∀ c ∈ t, c ≠ '\r') → univNl t = t := by
  intro t
  induction t using univNl.induct with
  | case1 => intro _; rfl
  | case2 rest ih => intro h; exact absurd rfl (h '\r' (by simp))
  | case3 rest hside ih => intro h; exact absurd rfl (h '\r' (by simp))
  | case4 c rest hside1 hside2 ih =>
    intro h
    simp only [univNl]
    exact congrArg (c :: ·) (ih fun x hx => h x (by simp [hx]))

set_option maxHeartbeats 1000000 in
/-- Key splitting equivalence: when the text contains no line boundary other
than LF, no whitespace character other than LF immediately before an LF,
and no such character at its very end, then right-stripping each line of
readlines yields exactly splitlines.  Stated over the workers with an
explicit accumulator of already-consumed characters of the current line. -/
theorem lines_agree :
    ∀ t acc : List Char,
      (∀ c ∈ t, isLineBoundary c = true → c = '\n') →
      (∀ c ∈ acc, isLineBoundary c = false) →
      List.Chain' (fun a b => okPairB a b = true) (acc.reverse ++ t) →
      noTrailBad (acc.reverse ++ t) = true →
      List.map pyRstrip (readlinesAux t acc) = splitlinesAux t acc := by
  intro t acc
  induction t, acc using splitlinesAux.induct with
  | case1 =>
    intro _ _ _ _
    rfl
  | case2 acc hne =>
    intro _ hacc _ hlast
    simp only [readlinesAux, splitlinesAux, if_neg hne, List.map_cons,
      List.map_nil]
    congr 1
    cases acc with
    | nil => exact absurd rfl hne
    | cons c0 acc' =>
      have hl : noTrailBad ((c0 :: acc').reverse) = true := by
        simpa using hlast
      have hb0 : isLineBoundary c0 = false := hacc c0 (by simp)
      have hne' : c0 ≠ '\n' := by
        intro hEq
        rw [hEq] at hb0
        exact absurd hb0 (by decide)
      have hsp : pyIsSpace c0 = false := by
        unfold noTrailBad at hl
        rw [show ((c0 :: acc').reverse).getLast? = some c0 from by simp] at hl
        simpa [hne'] using hl
      exact pyRstrip_of_nodrop _ (List.dropWhile_cons_of_neg (by simp [hsp]))
  | case3 rest ih =>
    intro hb _ _ _
    exact absurd (hb '\r' (by simp) (by decide)) (by decide)
  | case4 c rest acc hside hbd ih =>
    intro hb hacc hch hlast
    have hcn : c = '\n' := hb c (by simp) hbd
    subst hcn
    rw [show readlinesAux ('\n' :: rest) acc =
        ('\n' :: acc).reverse :: readlinesAux rest [] from by
      simp [readlinesAux]]
    rw [show splitlinesAux ('\n' :: rest) acc =
        acc.reverse :: splitlinesAux rest [] from by
      simp [splitlinesAux, isLineBoundary]]
    rw [List.map_cons]
    have hdw : acc.dropWhile pyIsSpace = acc := by
      cases acc with
      | nil => rfl
      | cons c0 acc' =>
        have hok : okPairB c0 '\n' = true :=
          (List.chain'_append.1 hch).2.2 c0 (by simp) '\n' (by simp)
        have hb0 : isLineBoundary c0 = false := hacc c0 (by simp)
        have hne' : c0 ≠ '\n' := by
          intro hEq
          rw [hEq] at hb0
          exact absurd hb0 (by decide)
        have hsp : pyIsSpace c0 = false := by
          unfold okPairB at hok
          rw [if_pos rfl] at hok
          simpa [hne'] using hok
        exact List.dropWhile_cons_of_neg (by simp [hsp])
    rw [pyRstrip_snoc_newline acc hdw]
    congr 1
    apply ih
    · intro x hx hbx
      exact hb x (by simp [hx]) hbx
    · intro x hx
      exact absurd hx (List.not_mem_nil x)
    · simpa using ((List.chain'_append.1 hch).2.1).tail
    · cases hrest : rest with
      | nil => rfl
      | cons a r =>
        have h1 : noTrailBad (acc.reverse ++ '\n' :: a :: r) = true := by
          rw [← hrest]
          exact hlast
        have h2 : noTrailBad ('\n' :: a :: r) = true := by
          rw [← noTrailBad_append acc.reverse ('\n' :: a :: r) (by simp)]
          exact h1
        have h3 : noTrailBad (a :: r) = true := by
          rw [← noTrailBad_append ['\n'] (a :: r) (by simp)]
          exact h2
        simpa using h3
  | case5 c rest acc hside hbd ih =>
    intro hb hacc hch hlast
    have hcn : c ≠ '\n' := by
      intro hEq
      rw [hEq] at hbd
      exact hbd (by decide)
    rw [show readlinesAux (c :: rest) acc = readlinesAux rest (c :: acc) from by
      simp [readlinesAux, hcn]]
    rw [show splitlinesAux (c :: rest) acc = splitlinesAux rest (c :: acc) from by
      simp [splitlinesAux, hbd]]
    apply ih
    · intro x hx hbx
      exact hb x (by simp [hx]) hbx
    · intro x hx
      rcases List.mem_cons.1 hx with hx | hx
      · rw [hx]
        exact Bool.eq_false_iff.mpr hbd
      · exact hacc x hx
    · rw [List.reverse_cons, List.append_assoc, List.singleton_append]
      exact hch
    · rw [List.reverse_cons, List.append_assoc, List.singleton_append]
      exact hlast

/-- Top-level form of the splitting equivalence. -/
theorem map_rstrip_readlines_eq_splitlines (t : List Char)
    (hb : ∀ c ∈ t, isLineBoundary c = true → c = '\n')
    (hch : List.Chain' (fun a b => okPairB a b = true) t)
    (hlast : noTrailBad t = true) :
    List.map pyRstrip (pyReadlines t) = pySplitlines t := by
  unfold pyReadlines pySplitlines
  exact lines_agree t [] hb (fun x hx => absurd hx (List.not_mem_nil x))
    (by simpa using hch) (by simpa using hlast)

/-- C8 counterexample: on the text consisting of the two characters A and
space, with limit 1, the local parser right-strips the line to A while the
object-store parser keeps the trailing space, so the entries differ. -/
theorem log_parser_backend_equiv_counterexample :
    parse_log_file "A ".data 1 ≠ parse_log_file_s3 "A ".data 1 := by
  decide

/-- The Boolean pairwise condition is the chain of okPairB constraints. -/
theorem okPairsB_eq_true_iff (t : List Char) :
    okPairsB t = true ↔
      List.Chain' (fun a b => okPairB a b = true) t := by
  induction t with
  | nil => simp [okPairsB]
  | cons a rest ih =>
    cases rest with
    | nil => simp [okPairsB]
    | cons b r =>
      rw [List.chain'_cons]
      simp only [okPairsB, Bool.and_eq_true, ih]

/-- C8 amended.  The two parsers agree on every limit for every text whose
lines both backends split identically: no line-boundary character other
than LF, and no trailing whitespace on any line (no whitespace character
other than LF immediately before an LF or at the end of the text). -/
theorem log_parser_backend_equiv_amended :
    ∀ (t : List Char) (n : Nat),
      (∀ c ∈ t, isLineBoundary c = true → c = '\n') →
      okPairsB t = true →
      noTrailBad t = true →
      parse_log_file t n = parse_log_file_s3 t n := by
  intro t n hb hok hlast
  have hch := (okPairsB_eq_true_iff t).1 hok
  have hr : ∀ c ∈ t, c ≠ '\r' := by
    intro c hc hEq
    subst hEq
    exact absurd (hb '\r' hc (by decide)) (by decide)
  unfold parse_log_file parse_log_file_s3
  rw [univNl_id t hr, List.map_take,
    map_rstrip_readlines_eq_splitlines t hb hch hlast]

/-- C8 witness: the amended theorem applied to a well-formed two-line text. -/
theorem log_parser_backend_equiv_witness :
    parse_log_file "2024-01-01 00:00:00 A\nB".data 5 =
      parse_log_file_s3 "2024-01-01 00:00:00 A\nB".data 5 :=
  log_parser_backend_equiv_amended "2024-01-01 00:00:00 A\nB".data 5
    (by decide) (by decide) (by decide)

/-! ## String facts for the classifier -/

/-- The basename is a suffix of the path. -/
theorem basename_suffix (f : List Char) : basename f <:+ f := by
  unfold basename
  have h := List.takeWhile_prefix (l := f.reverse) (fun c => c != '/')
  simpa using List.reverse_suffix.mpr h

/-- A prefix all of whose elements satisfy p is a prefix of the takeWhile. -/
theorem prefix_takeWhile_of_all {p : Char → Bool} :
    ∀ l₁ l₂ : List Char, l₁ <+: l₂ → (∀ c ∈ l₁, p c = true) →
      l₁ <+: l₂.takeWhile p := by
  intro l₁
  induction l₁ with
  | nil => intro l₂ _ _; exact List.nil_prefix
  | cons a t ih =>
    intro l₂ hpre hall
    obtain ⟨r, hr⟩ := hpre
    rw [← hr, List.cons_append,
      List.takeWhile_cons_of_pos (hall a (by simp)), List.cons_prefix_cons]
    exact ⟨rfl, ih (t ++ r) ⟨r, rfl⟩ fun c hc => hall c (by simp [hc])⟩

/-- A slash-free string is a suffix of the path exactly when it is a suffix
of its basename. -/
theorem suffix_basename_iff (s f : List Char) (hs : ∀ c ∈ s, c ≠ '/') :
    s <:+ basename f ↔ s <:+ f := by
  constructor
  · intro h
    exact h.trans (basename_suffix f)
  · intro h
    have h1 : s.reverse <+: f.reverse := by
      rw [ List.reverse_prefix]
      exact h
    have h2 : s.reverse <+: f.reverse.takeWhile (fun c => c != '/') :=
      prefix_takeWhile_of_all _ _ h1 fun c hc => by
        simp only [List.mem_reverse] at hc
        simpa using hs c hc
    unfold basename
    rw [← List.reverse_prefix, List.reverse_reverse]
    exact h2

/-- The Boolean suffix test is insensitive to taking the basename for
slash-free suffixes. -/
theorem isSuffixOf_basename_eq (s f : List Char) (hs : ∀ c ∈ s, c ≠ '/') :
    s.isSuffixOf (basename f) = s.isSuffixOf f := by
  have hiff := suffix_basename_iff s f hs
  cases hval : s.isSuffixOf f with
  | true =>
    have h2 : s <:+ basename f := hiff.2 (by simpa using hval)
    simpa using h2
  | false =>
    cases hval2 : s.isSuffixOf (basename f) with
    | false => rfl
    | true =>
      have h2 : s <:+ f := hiff.1 (by simpa using hval2)
      rw [show s.isSuffixOf f = true from by simpa using h2] at hval
      simp at hval

/-- Two suffixes of one list are comparable; an incomparable shorter one is
therefore impossible alongside a longer one. -/
theorem no_two_suffixes (s₁ s₂ l : List Char) (hlen : s₁.length ≤ s₂.length)
    (hns : ¬ s₁ <:+ s₂) : ¬ (s₁ <:+ l ∧ s₂ <:+ l) := by
  rintro ⟨h₁, h₂⟩
  rcases List.suffix_or_suffix_of_suffix h₁ h₂ with h | h
  · exact hns h
  · have heq : s₂ = s₁ := h.eq_of_length_le hlen
    exact hns (by rw [heq])

/-- The head surviving dropWhile refutes the predicate. -/
theorem dropWhile_head_false (p : Char → Bool) :
    ∀ (l : List Char) (c : Char) (r : List Char),
      l.dropWhile p = c :: r → p c = false := by
  intro l
  induction l with
  | nil => intro c r h; simp [List.dropWhile] at h
  | cons a t ih =>
    intro c r h
    rw [List.dropWhile_cons] at h
    by_cases hp : p a
    · rw [if_pos hp] at h
      exact ih c r h
    · rw [if_neg hp] at h
      injection h with h1 _
      rw [← h1]
      exact Bool.eq_false_iff.mpr hp

/-! ## Category predicates: field lemmas and incompatibilities -/

/-- The main category is a single filter over the entries. -/
theorem fbf_main (es : List (List Char)) :
    (find_backtest_files es).main = es.filter isMainB := by
  simp only [find_backtest_files]
  rw [List.filter_filter]
  exact List.filter_congr fun x _ => by
    simp only [isMainB]
    exact Bool.and_comm _ _

/-- The summary category is a single filter over the entries. -/
theorem fbf_summary (es : List (List Char)) :
    (find_backtest_files es).summary = es.filter isSummaryB := by
  simp only [find_backtest_files]
  rw [List.filter_filter]
  exact List.filter_congr fun x _ => by
    simp only [isSummaryB]
    exact Bool.and_comm _ _

/-- The order_events category is a single filter over the entries. -/
theorem fbf_order_events (es : List (List Char)) :
    (find_backtest_files es).order_events = es.filter isOrderEventsB := by
  simp only [find_backtest_files]
  rw [List.filter_filter]
  exact List.filter_congr fun x _ => by
    simp only [isOrderEventsB]
    exact Bool.and_comm _ _

/-- The monitor_report category is a single filter over the entries. -/
theorem fbf_monitor (es : List (List Char)) :
    (find_backtest_files es).monitor_report = es.filter isMonitorReportB := by
  simp only [find_backtest_files]
  rw [List.filter_filter]
  exact List.filter_congr fun x _ => by
    simp only [isMonitorReportB]
    exact Bool.and_comm _ _

/-- The log category is a single filter over the entries. -/
theorem fbf_log (es : List (List Char)) :
    (find_backtest_files es).log = es.filter isLogB := by
  simp only [find_backtest_files]
  rw [List.filter_filter]
  exact List.filter_congr fun x _ => by
    simp only [isLogB]
    exact Bool.and_comm _ _

/-- The failed_data_requests category is a single filter over the entries. -/
theorem fbf_failed (es : List (List Char)) :
    (find_backtest_files es).failed_data_requests = es.filter isFailedB := by
  simp only [find_backtest_files]
  rw [List.filter_filter]
  exact List.filter_congr fun x _ => by
    simp only [isFailedB]
    exact Bool.and_comm _ _

/-- The succeeded_data_requests category is a single filter over the
entries. -/
theorem fbf_succeeded (es : List (List Char)) :
    (find_backtest_files es).succeeded_data_requests =
      es.filter isSucceededB := by
  simp only [find_backtest_files]
  rw [List.filter_filter]
  exact List.filter_congr fun x _ => by
    simp only [isSucceededB]
    exact Bool.and_comm _ _

/-- A name cannot both end in .json and end in .txt. -/
theorem json_txt_clash (f : List Char) :
    ¬(globJsonB f = true ∧ globTxtB f = true) := by
  rintro ⟨hj, ht⟩
  simp only [globJsonB, globTxtB, Bool.and_eq_true] at hj ht
  have h1 : ".json".data <:+ basename f := by simpa using hj.1
  have h2 : ".txt".data <:+ basename f := by simpa using ht.1
  exact no_two_suffixes ".txt".data ".json".data (basename f) (by decide)
    (by decide) ⟨h2, h1⟩

/-- A path cannot both end in -summary.json and in -order-events.json. -/
theorem summary_order_clash (f : List Char) :
    ¬(sufSummaryB f = true ∧ sufOrderEventsB f = true) := by
  rintro ⟨hs, ho⟩
  have h1 : "-summary.json".data <:+ f := by simpa [sufSummaryB] using hs
  have h2 : "-order-events.json".data <:+ f := by
    simpa [sufOrderEventsB] using ho
  exact no_two_suffixes "-summary.json".data "-order-events.json".data f
    (by decide) (by decide) ⟨h1, h2⟩

/-- Main excludes summary. -/
theorem not_main_and_summary (x : List Char) :
    ¬(isMainB x = true ∧ isSummaryB x = true) := by
  rintro ⟨h1, h2⟩
  rw [isMainB, Bool.and_eq_true] at h1
  rw [isSummaryB, Bool.and_eq_true] at h2
  simp [h2.2] at h1

/-- Main excludes order_events. -/
theorem not_main_and_order (x : List Char) :
    ¬(isMainB x = true ∧ isOrderEventsB x = true) := by
  rintro ⟨h1, h2⟩
  rw [isMainB, Bool.and_eq_true] at h1
  rw [isOrderEventsB, Bool.and_eq_true] at h2
  simp [h2.2] at h1

/-- Main excludes log (json against txt). -/
theorem not_main_and_log (x : List Char) :
    ¬(isMainB x = true ∧ isLogB x = true) := by
  rintro ⟨h1, h2⟩
  rw [isMainB, Bool.and_eq_true] at h1
  rw [isLogB, Bool.and_eq_true] at h2
  exact json_txt_clash x ⟨h1.1, h2.1⟩

/-- Summary excludes order_events (incompatible suffixes). -/
theorem not_summary_and_order (x : List Char) :
    ¬(isSummaryB x = true ∧ isOrderEventsB x = true) := by
  rintro ⟨h1, h2⟩
  rw [isSummaryB, Bool.and_eq_true] at h1
  rw [isOrderEventsB, Bool.and_eq_true] at h2
  exact summary_order_clash x ⟨h1.2, h2.2⟩

/-- Summary excludes log (json against txt). -/
theorem not_summary_and_log (x : List Char) :
    ¬(isSummaryB x = true ∧ isLogB x = true) := by
  rintro ⟨h1, h2⟩
  rw [isSummaryB, Bool.and_eq_true] at h1
  rw [isLogB, Bool.and_eq_true] at h2
  exact json_txt_clash x ⟨h1.1, h2.1⟩

/-- Order_events excludes log (json against txt). -/
theorem not_order_and_log (x : List Char) :
    ¬(isOrderEventsB x = true ∧ isLogB x = true) := by
  rintro ⟨h1, h2⟩
  rw [isOrderEventsB, Bool.and_eq_true] at h1
  rw [isLogB, Bool.and_eq_true] at h2
  exact json_txt_clash x ⟨h1.1, h2.1⟩

/-- Per entry, at most one of the seven local category predicates holds once
the three startswith prefixes are excluded, and exactly one holds exactly
when some predicate matches. -/
theorem localPred_count (f : List Char)
    (hm : startsMonitorB f = false) (hf : startsFailedB f = false)
    (hs : startsSucceededB f = false) :
    ((if isMainB f = true then 1 else 0) +
     (if isSummaryB f = true then 1 else 0) +
     (if isOrderEventsB f = true then 1 else 0) +
     (if isMonitorReportB f = true then 1 else 0) +
     (if isLogB f = true then 1 else 0) +
     (if isFailedB f = true then 1 else 0) +
     (if isSucceededB f = true then 1 else 0) ≤ 1) ∧
    ((if isMainB f = true then 1 else 0) +
     (if isSummaryB f = true then 1 else 0) +
     (if isOrderEventsB f = true then 1 else 0) +
     (if isMonitorReportB f = true then 1 else 0) +
     (if isLogB f = true then 1 else 0) +
     (if isFailedB f = true then 1 else 0) +
     (if isSucceededB f = true then 1 else 0) = 1 ↔
      (isMainB f || isSummaryB f || isOrderEventsB f || isMonitorReportB f ||
       isLogB f || isFailedB f || isSucceededB f) = true) := by
  have h4 : isMonitorReportB f = false := by simp [isMonitorReportB, hm]
  have h6 : isFailedB f = false := by simp [isFailedB, hf]
  have h7 : isSucceededB f = false := by simp [isSucceededB, hs]
  cases hj : globJsonB f with
  | false =>
    have h1 : isMainB f = false := by simp [isMainB, hj]
    have h2 : isSummaryB f = false := by simp [isSummaryB, hj]
    have h3 : isOrderEventsB f = false := by simp [isOrderEventsB, hj]
    cases h5 : isLogB f with
    | false => simp only [h1, h2, h3, h4, h5, h6, h7]; decide
    | true => simp only [h1, h2, h3, h4, h5, h6, h7]; decide
  | true =>
    have h5 : isLogB f = false := by
      cases ht : globTxtB f with
      | false => simp [isLogB, ht]
      | true => exact absurd ⟨hj, ht⟩ (json_txt_clash f)
    cases hsm : sufSummaryB f with
    | true =>
      have hoe : sufOrderEventsB f = false := by
        cases hval : sufOrderEventsB f with
        | false => rfl
        | true => exact absurd ⟨hsm, hval⟩ (summary_order_clash f)
      have h1 : isMainB f = false := by simp [isMainB, hsm]
      have h2 : isSummaryB f = true := by simp [isSummaryB, hj, hsm]
      have h3 : isOrderEventsB f = false := by simp [isOrderEventsB, hoe]
      simp only [h1, h2, h3, h4, h5, h6, h7]
      decide
    | false =>
      cases hoe : sufOrderEventsB f with
      | true =>
        have h1 : isMainB f = false := by simp [isMainB, hoe]
        have h2 : isSummaryB f = false := by simp [isSummaryB, hsm]
        have h3 : isOrderEventsB f = true := by simp [isOrderEventsB, hj, hoe]
        simp only [h1, h2, h3, h4, h5, h6, h7]
        decide
      | false =>
        have h1 : isMainB f = true := by simp [isMainB, hj, hsm, hoe, hm]
        have h2 : isSummaryB f = false := by simp [isSummaryB, hsm]
        have h3 : isOrderEventsB f = false := by simp [isOrderEventsB, hoe]
        simp only [h1, h2, h3, h4, h5, h6, h7]
        decide

/-- Summed category counts over the entries: at most the number of entries,
with equality exactly when every entry matches some category predicate. -/
theorem countP_seven :
    ∀ es : List (List Char),
      (∀ f ∈ es, startsMonitorB f = false ∧ startsFailedB f = false ∧
        startsSucceededB f = false) →
      (es.countP isMainB + es.countP isSummaryB + es.countP isOrderEventsB +
        es.countP isMonitorReportB + es.countP isLogB + es.countP isFailedB +
        es.countP isSucceededB ≤ es.length) ∧
      (es.countP isMainB + es.countP isSummaryB + es.countP isOrderEventsB +
        es.countP isMonitorReportB + es.countP isLogB + es.countP isFailedB +
        es.countP isSucceededB = es.length ↔
        ∀ f ∈ es,
          (isMainB f || isSummaryB f || isOrderEventsB f ||
           isMonitorReportB f || isLogB f || isFailedB f ||
           isSucceededB f) = true) := by
  intro es
  induction es with
  | nil => intro _; simp
  | cons a es ih =>
    intro h
    have ha := h a (by simp)
    obtain ⟨hcnt1, hcnt2⟩ := localPred_count a ha.1 ha.2.1 ha.2.2
    obtain ⟨ih1, ih2⟩ := ih fun f hf => h f (by simp [hf])
    simp only [List.countP_cons, List.length_cons]
    constructor
    · omega
    · constructor
      · intro hEq
        intro f hf
        rcases List.mem_cons.1 hf with rfl | hf'
        · exact hcnt2.mp (by omega)
        · exact ih2.mp (by omega) f hf'
      · intro hall
        have hC := hcnt2.mpr (hall a (by simp))
        have hS := ih2.mpr fun f hf => hall f (by simp [hf])
        omega

/-- Disjoint predicates give disjoint filters. -/
theorem filters_disj {p q : List Char → Bool} (es : List (List Char))
    (hpq : ∀ x, ¬(p x = true ∧ q x = true)) :
    ∀ x, x ∈ es.filter p → x ∉ es.filter q := by
  intro x hx hq
  rw [List.mem_filter] at hx hq
  exact hpq x ⟨hx.2, hq.2⟩

/-- Without data-monitor-report basenames the monitor_report category is
empty. -/
theorem fbf_monitor_nil (es : List (List Char))
    (h : ∀ f ∈ es, startsMonitorB f = false) :
    (find_backtest_files es).monitor_report = [] := by
  rw [fbf_monitor, List.filter_eq_nil_iff]
  intro a ha
  simp [isMonitorReportB, h a ha]

/-- Without failed-data-requests basenames the failed_data_requests category
is empty. -/
theorem fbf_failed_nil (es : List (List Char))
    (h : ∀ f ∈ es, startsFailedB f = false) :
    (find_backtest_files es).failed_data_requests = [] := by
  rw [fbf_failed, List.filter_eq_nil_iff]
  intro a ha
  simp [isFailedB, h a ha]

/-- Without succeeded-data-requests basenames the succeeded_data_requests
category is empty. -/
theorem fbf_succeeded_nil (es : List (List Char))
    (h : ∀ f ∈ es, startsSucceededB f = false) :
    (find_backtest_files es).succeeded_data_requests = [] := by
  rw [fbf_succeeded, List.filter_eq_nil_iff]
  intro a ha
  simp [isSucceededB, h a ha]

/-- C1 counterexample: a single file matching both the monitor-report prefix
rule and the summary suffix rule lands in two categories at once, and the
category lengths sum to 2 although only one path was given. -/
theorem classification_exclusivity_counterexample :
    "data-monitor-report-x-summary.json".data ∈
      (find_backtest_files
        ["data-monitor-report-x-summary.json".data]).monitor_report ∧
    "data-monitor-report-x-summary.json".data ∈
      (find_backtest_files
        ["data-monitor-report-x-summary.json".data]).summary ∧
    totalLen (find_backtest_files
      ["data-monitor-report-x-summary.json".data]) = 2 := by
  decide

/-- C1 amended.  For entry sets containing no basename that starts with
data-monitor-report, failed-data-requests or succeeded-data-requests, the
local classifier is exclusive: the seven categories are pairwise disjoint,
their lengths sum to at most the number of entries, and the sum equals the
number of entries exactly when every entry lands in some category. -/
theorem classification_exclusivity_amended :
    ∀ entries : List (List Char),
      (∀ f ∈ entries, startsMonitorB f = false ∧ startsFailedB f = false ∧
        startsSucceededB f = false) →
      List.Pairwise (fun A B => ∀ p, p ∈ A → p ∉ B)
        (catListOf (find_backtest_files entries)) ∧
      totalLen (find_backtest_files entries) ≤ entries.length ∧
      (totalLen (find_backtest_files entries) = entries.length ↔
        ∀ f ∈ entries,
          f ∈ (find_backtest_files entries).main ∨
          f ∈ (find_backtest_files entries).summary ∨
          f ∈ (find_backtest_files entries).order_events ∨
          f ∈ (find_backtest_files entries).monitor_report ∨
          f ∈ (find_backtest_files entries).log ∨
          f ∈ (find_backtest_files entries).failed_data_requests ∨
          f ∈ (find_backtest_files entries).succeeded_data_requests) := by
  intro es h
  have hmr : (find_backtest_files es).monitor_report = [] :=
    fbf_monitor_nil es fun f hf => (h f hf).1
  have hfl : (find_backtest_files es).failed_data_requests = [] :=
    fbf_failed_nil es fun f hf => (h f hf).2.1
  have hsc : (find_backtest_files es).succeeded_data_requests = [] :=
    fbf_succeeded_nil es fun f hf => (h f hf).2.2
  have htot : totalLen (find_backtest_files es) =
      es.countP isMainB + es.countP isSummaryB + es.countP isOrderEventsB +
      es.countP isMonitorReportB + es.countP isLogB + es.countP isFailedB +
      es.countP isSucceededB := by
    unfold totalLen
    rw [fbf_main, fbf_summary, fbf_order_events, fbf_monitor, fbf_log,
      fbf_failed, fbf_succeeded]
    simp [List.countP_eq_length_filter]
  obtain ⟨hle, hiff⟩ := countP_seven es h
  refine ⟨?_, ?_, ?_⟩
  · simp only [catListOf, hmr, hfl, hsc, fbf_main, fbf_summary,
      fbf_order_events, fbf_log]
    refine List.Pairwise.cons ?_ (List.Pairwise.cons ?_ (List.Pairwise.cons ?_
      (List.Pairwise.cons ?_ (List.Pairwise.cons ?_ (List.Pairwise.cons ?_
        (List.Pairwise.cons ?_ List.Pairwise.nil))))))
    · intro B hB
      simp only [List.mem_cons, List.not_mem_nil, or_false,
        List.mem_singleton] at hB
      rcases hB with rfl | rfl | rfl | rfl | rfl | rfl
      · exact filters_disj es not_main_and_summary
      · exact filters_disj es not_main_and_order
      · intro p _ hp
        exact List.not_mem_nil p hp
      · exact filters_disj es not_main_and_log
      · intro p _ hp
        exact List.not_mem_nil p hp
      · intro p _ hp
        exact List.not_mem_nil p hp
    · intro B hB
      simp only [List.mem_cons, List.not_mem_nil, or_false,
        List.mem_singleton] at hB
      rcases hB with rfl | rfl | rfl | rfl | rfl
      · exact filters_disj es not_summary_and_order
      · intro p _ hp
        exact List.not_mem_nil p hp
      · exact filters_disj es not_summary_and_log
      · intro p _ hp
        exact List.not_mem_nil p hp
      · intro p _ hp
        exact List.not_mem_nil p hp
    · intro B hB
      simp only [List.mem_cons, List.not_mem_nil, or_false,
        List.mem_singleton] at hB
      rcases hB with rfl | rfl | rfl | rfl
      · intro p _ hp
        exact List.not_mem_nil p hp
      · exact filters_disj es not_order_and_log
      · intro p _ hp
        exact List.not_mem_nil p hp
      · intro p _ hp
        exact List.not_mem_nil p hp
    · intro B hB p hp
      exact absurd hp (List.not_mem_nil p)
    · intro B hB
      simp only [List.mem_cons, List.not_mem_nil, or_false,
        List.mem_singleton] at hB
      rcases hB with rfl | rfl
      · intro p _ hp
        exact List.not_mem_nil p hp
      · intro p _ hp
        exact List.not_mem_nil p hp
    · intro B hB p hp
      exact absurd hp (List.not_mem_nil p)
    · intro B hB
      exact absurd hB (List.not_mem_nil B)
  · rw [htot]
    exact hle
  · rw [htot]
    refine hiff.trans ?_
    constructor
    · intro hall f hf
      have hb := hall f hf
      rw [fbf_main, fbf_summary, fbf_order_events, fbf_monitor, fbf_log,
        fbf_failed, fbf_succeeded]
      simp only [List.mem_filter, Bool.or_eq_true] at hb ⊢
      simpa [hf, or_assoc] using hb
    · intro hall f hf
      have hb := hall f hf
      rw [fbf_main, fbf_summary, fbf_order_events, fbf_monitor, fbf_log,
        fbf_failed, fbf_succeeded] at hb
      simp only [List.mem_filter, Bool.or_eq_true] at hb ⊢
      simpa [hf, or_assoc] using hb

/-- C1 witness: the amended theorem applied to a three-entry folder (one
main file, one summary file, one txt file that is dropped). -/
theorem classification_exclusivity_witness :
    List.Pairwise (fun A B => ∀ p, p ∈ A → p ∉ B)
      (catListOf (find_backtest_files
        ["a/x.json".data, "a/y-summary.json".data, "a/z.txt".data])) ∧
    totalLen (find_backtest_files
      ["a/x.json".data, "a/y-summary.json".data, "a/z.txt".data]) ≤
      (["a/x.json".data, "a/y-summary.json".data, "a/z.txt".data] :
        List (List Char)).length ∧
    (totalLen (find_backtest_files
        ["a/x.json".data, "a/y-summary.json".data, "a/z.txt".data]) =
      (["a/x.json".data, "a/y-summary.json".data, "a/z.txt".data] :
        List (List Char)).length ↔
      ∀ f ∈ (["a/x.json".data, "a/y-summary.json".data, "a/z.txt".data] :
          List (List Char)),
        f ∈ (find_backtest_files
          ["a/x.json".data, "a/y-summary.json".data, "a/z.txt".data]).main ∨
        f ∈ (find_backtest_files
          ["a/x.json".data, "a/y-summary.json".data, "a/z.txt".data]).summary ∨
        f ∈ (find_backtest_files
          ["a/x.json".data, "a/y-summary.json".data,
            "a/z.txt".data]).order_events ∨
        f ∈ (find_backtest_files
          ["a/x.json".data, "a/y-summary.json".data,
            "a/z.txt".data]).monitor_report ∨
        f ∈ (find_backtest_files
          ["a/x.json".data, "a/y-summary.json".data, "a/z.txt".data]).log ∨
        f ∈ (find_backtest_files
          ["a/x.json".data, "a/y-summary.json".data,
            "a/z.txt".data]).failed_data_requests ∨
        f ∈ (find_backtest_files
          ["a/x.json".data, "a/y-summary.json".data,
            "a/z.txt".data]).succeeded_data_requests) :=
  classification_exclusivity_amended
    ["a/x.json".data, "a/y-summary.json".data, "a/z.txt".data] (by decide)

/-- C2 counterexample: the file data-monitor-report-xyz-summary.json also
appears in the summary category (the summary filter does not exclude the
monitor-report prefix), contradicting the claimed first-match precedence. -/
theorem monitor_precedence_counterexample :
    "data-monitor-report-xyz-summary.json".data ∈
      (find_backtest_files
        ["data-monitor-report-xyz-summary.json".data]).summary := by
  decide

/-- C2 amended.  An entry whose basename is
data-monitor-report-xyz-summary.json is classified into monitor_report and
also into summary, and into no other category — in particular never into
main. -/
theorem monitor_precedence_amended :
    ∀ (entries : List (List Char)) (f : List Char), f ∈ entries →
      basename f = "data-monitor-report-xyz-summary.json".data →
      (f ∈ (find_backtest_files entries).monitor_report ∧
       f ∈ (find_backtest_files entries).summary ∧
       f ∉ (find_backtest_files entries).main ∧
       f ∉ (find_backtest_files entries).order_events ∧
       f ∉ (find_backtest_files entries).log ∧
       f ∉ (find_backtest_files entries).failed_data_requests ∧
       f ∉ (find_backtest_files entries).succeeded_data_requests) := by
  intro es f hf hbn
  have hjson : globJsonB f = true := by
    unfold globJsonB
    rw [hbn]
    decide
  have hmon : startsMonitorB f = true := by
    unfold startsMonitorB
    rw [hbn]
    decide
  have hsum : sufSummaryB f = true := by
    have h1 : "-summary.json".data <:+ basename f := by
      rw [hbn]
      decide
    have h2 : "-summary.json".data <:+ f :=
      (suffix_basename_iff _ f (by decide)).1 h1
    simpa [sufSummaryB] using h2
  have hoe : sufOrderEventsB f = false := by
    have h1 : ¬ "-order-events.json".data <:+ f := by
      rw [← suffix_basename_iff _ f (by decide), hbn]
      decide
    simp only [sufOrderEventsB]
    cases hval : "-order-events.json".data.isSuffixOf f with
    | false => rfl
    | true => exact absurd (by simpa using hval) h1
  have htxt : globTxtB f = false := by
    unfold globTxtB
    rw [hbn]
    decide
  refine ⟨?_, ?_, ?_, ?_, ?_, ?_, ?_⟩
  · rw [fbf_monitor]
    exact List.mem_filter.2 ⟨hf, by simp [isMonitorReportB, hjson, hmon]⟩
  · rw [fbf_summary]
    exact List.mem_filter.2 ⟨hf, by simp [isSummaryB, hjson, hsum]⟩
  · rw [fbf_main]
    intro hmem
    have hx := (List.mem_filter.1 hmem).2
    simp [isMainB, hmon] at hx
  · rw [fbf_order_events]
    intro hmem
    have hx := (List.mem_filter.1 hmem).2
    simp [isOrderEventsB, hoe] at hx
  · rw [fbf_log]
    intro hmem
    have hx := (List.mem_filter.1 hmem).2
    simp [isLogB, htxt] at hx
  · rw [fbf_failed]
    intro hmem
    have hx := (List.mem_filter.1 hmem).2
    simp [isFailedB, htxt] at hx
  · rw [fbf_succeeded]
    intro hmem
    have hx := (List.mem_filter.1 hmem).2
    simp [isSucceededB, htxt] at hx

/-- C2 witness: the amended theorem applied to a one-entry folder holding
exactly that file. -/
theorem monitor_precedence_witness :
    "data-monitor-report-xyz-summary.json".data ∈
      (find_backtest_files
        ["data-monitor-report-xyz-summary.json".data]).monitor_report ∧
    "data-monitor-report-xyz-summary.json".data ∈
      (find_backtest_files
        ["data-monitor-report-xyz-summary.json".data]).summary ∧
    "data-monitor-report-xyz-summary.json".data ∉
      (find_backtest_files
        ["data-monitor-report-xyz-summary.json".data]).main ∧
    "data-monitor-report-xyz-summary.json".data ∉
      (find_backtest_files
        ["data-monitor-report-xyz-summary.json".data]).order_events ∧
    "data-monitor-report-xyz-summary.json".data ∉
      (find_backtest_files
        ["data-monitor-report-xyz-summary.json".data]).log ∧
    "data-monitor-report-xyz-summary.json".data ∉
      (find_backtest_files
        ["data-monitor-report-xyz-summary.json".data]).failed_data_requests ∧
    "data-monitor-report-xyz-summary.json".data ∉
      (find_backtest_files
        ["data-monitor-report-xyz-summary.json".data]).succeeded_data_requests :=
  monitor_precedence_amended ["data-monitor-report-xyz-summary.json".data]
    "data-monitor-report-xyz-summary.json".data (by decide) (by decide)

/-- C3 counterexample: a file named data-monitor-report (no extension) is
dropped by the local classifier, whose monitor_report category draws from
the json glob only, but categorized as monitor_report by the object-store
classifier, which applies the basename prefix test to every listed key. -/
theorem backend_agreement_counterexample :
    find_backtest_files ["data-monitor-report".data] ≠
      find_backtest_files_s3 ["data-monitor-report".data] := by
  decide

/-- C3 amended.  The two classifiers produce identical results on every
entry sequence in which no basename is hidden (leading dot) and each
prefix-rule basename carries the extension its local glob requires:
data-monitor-report names end in .json, failed-data-requests and
succeeded-data-requests names end in .txt. -/
theorem backend_agreement_amended :
    ∀ entries : List (List Char),
      (∀ f ∈ entries,
        ".".data.isPrefixOf (basename f) = false ∧
        (startsMonitorB f = true → ".json".data.isSuffixOf f = true) ∧
        (startsFailedB f = true → ".txt".data.isSuffixOf f = true) ∧
        (startsSucceededB f = true → ".txt".data.isSuffixOf f = true)) →
      find_backtest_files entries = find_backtest_files_s3 entries := by
  intro es h
  simp only [find_backtest_files, find_backtest_files_s3,
    ClassifiedFiles.mk.injEq]
  refine ⟨?_, ?_, ?_, ?_, ?_, ?_, ?_⟩
  · rw [List.filter_filter]
    refine List.filter_congr fun x hx => ?_
    have hh := h x hx
    have hg : globJsonB x = ".json".data.isSuffixOf x := by
      unfold globJsonB
      rw [isSuffixOf_basename_eq _ x (by decide), hh.1]
      simp
    rw [hg, Bool.and_comm]
  · rw [List.filter_filter]
    refine List.filter_congr fun x hx => ?_
    have hh := h x hx
    cases hsv : sufSummaryB x with
    | false => simp
    | true =>
      have hmid : "-summary.json".data <:+ x := by
        simpa [sufSummaryB] using hsv
      have hjs : ".json".data <:+ x :=
        List.IsSuffix.trans
          (show ".json".data <:+ "-summary.json".data by decide) hmid
      have hg : globJsonB x = true := by
        unfold globJsonB
        rw [isSuffixOf_basename_eq _ x (by decide), hh.1]
        simpa using hjs
      simp [hg]
  · rw [List.filter_filter]
    refine List.filter_congr fun x hx => ?_
    have hh := h x hx
    cases hsv : sufOrderEventsB x with
    | false => simp
    | true =>
      have hmid : "-order-events.json".data <:+ x := by
        simpa [sufOrderEventsB] using hsv
      have hjs : ".json".data <:+ x :=
        List.IsSuffix.trans
          (show ".json".data <:+ "-order-events.json".data by decide) hmid
      have hg : globJsonB x = true := by
        unfold globJsonB
        rw [isSuffixOf_basename_eq _ x (by decide), hh.1]
        simpa using hjs
      simp [hg]
  · rw [List.filter_filter]
    refine List.filter_congr fun x hx => ?_
    have hh := h x hx
    cases hsv : startsMonitorB x with
    | false => simp
    | true =>
      have hg : globJsonB x = true := by
        unfold globJsonB
        rw [isSuffixOf_basename_eq _ x (by decide), hh.1]
        simpa using hh.2.1 hsv
      simp [hg]
  · rw [List.filter_filter]
    refine List.filter_congr fun x hx => ?_
    have hh := h x hx
    cases hsv : sufLogB x with
    | false => simp
    | true =>
      have hmid : "-log.txt".data <:+ x := by
        simpa [sufLogB] using hsv
      have hts : ".txt".data <:+ x :=
        List.IsSuffix.trans
          (show ".txt".data <:+ "-log.txt".data by decide) hmid
      have hg : globTxtB x = true := by
        unfold globTxtB
        rw [isSuffixOf_basename_eq _ x (by decide), hh.1]
        simpa using hts
      simp [hg]
  · rw [List.filter_filter]
    refine List.filter_congr fun x hx => ?_
    have hh := h x hx
    cases hsv : startsFailedB x with
    | false => simp
    | true =>
      have hg : globTxtB x = true := by
        unfold globTxtB
        rw [isSuffixOf_basename_eq _ x (by decide), hh.1]
        simpa using hh.2.2.1 hsv
      simp [hg]
  · rw [List.filter_filter]
    refine List.filter_congr fun x hx => ?_
    have hh := h x hx
    cases hsv : startsSucceededB x with
    | false => simp
    | true =>
      have hg : globTxtB x = true := by
        unfold globTxtB
        rw [isSuffixOf_basename_eq _ x (by decide), hh.1]
        simpa using hh.2.2.2 hsv
      simp [hg]

/-- C3 witness: on a two-entry listing obeying the naming convention the
two classifiers agree. -/
theorem backend_agreement_witness :
    find_backtest_files ["a/run-log.txt".data, "a/x-summary.json".data] =
      find_backtest_files_s3
        ["a/run-log.txt".data, "a/x-summary.json".data] :=
  backend_agreement_amended ["a/run-log.txt".data, "a/x-summary.json".data]
    (by decide)

/-- Structure equality from the seven field equalities. -/
theorem classifiedFiles_ext {r s : ClassifiedFiles}
    (h1 : r.main = s.main) (h2 : r.summary = s.summary)
    (h3 : r.order_events = s.order_events)
    (h4 : r.monitor_report = s.monitor_report) (h5 : r.log = s.log)
    (h6 : r.failed_data_requests = s.failed_data_requests)
    (h7 : r.succeeded_data_requests = s.succeeded_data_requests) : r = s := by
  cases r
  cases s
  simp_all

/-- Filtering a filter by a pointwise-incompatible predicate gives nothing. -/
theorem filter_filter_nil {p q : List Char → Bool} (es : List (List Char))
    (hpq : ∀ x ∈ es, ¬(q x = true ∧ p x = true)) :
    List.filter p (es.filter q) = [] := by
  rw [List.filter_eq_nil_iff]
  intro a ha
  rw [List.mem_filter] at ha
  intro hpa
  exact hpq a ha.1 ⟨ha.2, hpa⟩

/-- Filtering twice by the same predicate changes nothing. -/
theorem filter_filter_same {p : List Char → Bool} (es : List (List Char)) :
    List.filter p (es.filter p) = es.filter p := by
  rw [List.filter_filter]
  exact List.filter_congr fun x _ => by simp

/-- C7 counterexample: the overlapping file lies in both summary and
monitor_report, so the concatenation of the categories contains it twice and
reclassifying yields a summary category of length two, not the original
partition. -/
theorem classifier_idempotence_counterexample :
    find_backtest_files (concatCats (find_backtest_files
      ["data-monitor-report-x-summary.json".data])) ≠
    find_backtest_files ["data-monitor-report-x-summary.json".data] := by
  decide

/-- C7 amended.  For entry sets containing no basename with one of the three
special prefixes (so that the categories are pairwise disjoint),
reclassifying the concatenation of all categories reproduces exactly the
original classification. -/
theorem classifier_idempotence_amended :
    ∀ entries : List (List Char),
      (∀ f ∈ entries, startsMonitorB f = false ∧ startsFailedB f = false ∧
        startsSucceededB f = false) →
      find_backtest_files (concatCats (find_backtest_files entries)) =
        find_backtest_files entries := by
  intro es h
  have hmr : (find_backtest_files es).monitor_report = [] :=
    fbf_monitor_nil es fun f hf => (h f hf).1
  have hfl : (find_backtest_files es).failed_data_requests = [] :=
    fbf_failed_nil es fun f hf => (h f hf).2.1
  have hsc : (find_backtest_files es).succeeded_data_requests = [] :=
    fbf_succeeded_nil es fun f hf => (h f hf).2.2
  have hcc : concatCats (find_backtest_files es) =
      ((((((es.filter isMainB ++ es.filter isSummaryB) ++
        es.filter isOrderEventsB) ++ []) ++ es.filter isLogB) ++ []) ++ []) := by
    unfold concatCats
    rw [hmr, hfl, hsc, fbf_main, fbf_summary, fbf_order_events, fbf_log]
  have hnomon : ∀ x ∈ es, isMonitorReportB x = false := fun x hx => by
    simp [isMonitorReportB, (h x hx).1]
  have hnofail : ∀ x ∈ es, isFailedB x = false := fun x hx => by
    simp [isFailedB, (h x hx).2.1]
  have hnosucc : ∀ x ∈ es, isSucceededB x = false := fun x hx => by
    simp [isSucceededB, (h x hx).2.2]
  refine classifiedFiles_ext ?_ ?_ ?_ ?_ ?_ ?_ ?_
  · rw [fbf_main, fbf_main, hcc]
    simp only [List.filter_append, List.filter_nil, List.append_nil]
    rw [filter_filter_same,
      filter_filter_nil es fun x _ hqp => not_main_and_summary x ⟨hqp.2, hqp.1⟩,
      filter_filter_nil es fun x _ hqp => not_main_and_order x ⟨hqp.2, hqp.1⟩,
      filter_filter_nil es fun x _ hqp => not_main_and_log x ⟨hqp.2, hqp.1⟩]
    simp
  · rw [fbf_summary, fbf_summary, hcc]
    simp only [List.filter_append, List.filter_nil, List.append_nil]
    rw [filter_filter_same,
      filter_filter_nil es fun x _ hqp => not_main_and_summary x ⟨hqp.1, hqp.2⟩,
      filter_filter_nil es fun x _ hqp =>
        not_summary_and_order x ⟨hqp.2, hqp.1⟩,
      filter_filter_nil es fun x _ hqp => not_summary_and_log x ⟨hqp.2, hqp.1⟩]
    simp
  · rw [fbf_order_events, fbf_order_events, hcc]
    simp only [List.filter_append, List.filter_nil, List.append_nil]
    rw [filter_filter_same,
      filter_filter_nil es fun x _ hqp => not_main_and_order x ⟨hqp.1, hqp.2⟩,
      filter_filter_nil es fun x _ hqp =>
        not_summary_and_order x ⟨hqp.1, hqp.2⟩,
      filter_filter_nil es fun x _ hqp => not_order_and_log x ⟨hqp.2, hqp.1⟩]
    simp
  · rw [fbf_monitor, fbf_monitor, hcc]
    simp only [List.filter_append, List.filter_nil, List.append_nil]
    rw [filter_filter_nil es fun x hx hqp => by
        rw [hnomon x hx] at hqp
        exact Bool.false_ne_true hqp.2,
      filter_filter_nil es fun x hx hqp => by
        rw [hnomon x hx] at hqp
        exact Bool.false_ne_true hqp.2,
      filter_filter_nil es fun x hx hqp => by
        rw [hnomon x hx] at hqp
        exact Bool.false_ne_true hqp.2,
      filter_filter_nil es fun x hx hqp => by
        rw [hnomon x hx] at hqp
        exact Bool.false_ne_true hqp.2,
      List.filter_eq_nil_iff.mpr fun x hx => by
        simp [hnomon x hx]]
    simp
  · rw [fbf_log, fbf_log, hcc]
    simp only [List.filter_append, List.filter_nil, List.append_nil]
    rw [filter_filter_same,
      filter_filter_nil es fun x _ hqp => not_main_and_log x ⟨hqp.1, hqp.2⟩,
      filter_filter_nil es fun x _ hqp => not_summary_and_log x ⟨hqp.1, hqp.2⟩,
      filter_filter_nil es fun x _ hqp => not_order_and_log x ⟨hqp.1, hqp.2⟩]
    simp
  · rw [fbf_failed, fbf_failed, hcc]
    simp only [List.filter_append, List.filter_nil, List.append_nil]
    rw [filter_filter_nil es fun x hx hqp => by
        rw [hnofail x hx] at hqp
        exact Bool.false_ne_true hqp.2,
      filter_filter_nil es fun x hx hqp => by
        rw [hnofail x hx] at hqp
        exact Bool.false_ne_true hqp.2,
      filter_filter_nil es fun x hx hqp => by
        rw [hnofail x hx] at hqp
        exact Bool.false_ne_true hqp.2,
      filter_filter_nil es fun x hx hqp => by
        rw [hnofail x hx] at hqp
        exact Bool.false_ne_true hqp.2,
      List.filter_eq_nil_iff.mpr fun x hx => by
        simp [hnofail x hx]]
    simp
  · rw [fbf_succeeded, fbf_succeeded, hcc]
    simp only [List.filter_append, List.filter_nil, List.append_nil]
    rw [filter_filter_nil es fun x hx hqp => by
        rw [hnosucc x hx] at hqp
        exact Bool.false_ne_true hqp.2,
      filter_filter_nil es fun x hx hqp => by
        rw [hnosucc x hx] at hqp
        exact Bool.false_ne_true hqp.2,
      filter_filter_nil es fun x hx hqp => by
        rw [hnosucc x hx] at hqp
        exact Bool.false_ne_true hqp.2,
      filter_filter_nil es fun x hx hqp => by
        rw [hnosucc x hx] at hqp
        exact Bool.false_ne_true hqp.2,
      List.filter_eq_nil_iff.mpr fun x hx => by
        simp [hnosucc x hx]]
    simp

/-- C7 witness: reclassification of the concatenated categories of a small
convention-following folder is the identity. -/
theorem classifier_idempotence_witness :
    find_backtest_files (concatCats (find_backtest_files ["x.json".data])) =
      find_backtest_files ["x.json".data] :=
  classifier_idempotence_amended ["x.json".data] (by decide)

/-- C9.  parse_s3_path fails exactly on inputs lacking the s3:// marker;
for every input carrying the marker it succeeds, returning as bucket the
slash-free segment directly after the marker and as second component the
normalization of the remainder after the first slash (empty when there is
no slash). -/
theorem parse_s3_path_raises_iff :
    ∀ s : List Char,
      (parse_s3_path s = none ↔ ¬ ("s3://".data <+: s)) ∧
      (("s3://".data <+: s) →
        ∃ bucket rest1,
          s = "s3://".data ++ bucket ++ rest1 ∧
          (∀ c ∈ bucket, c ≠ '/') ∧
          ((rest1 = [] ∧
              parse_s3_path s = some (bucket, normalize_path [])) ∨
           (∃ raw, rest1 = '/' :: raw ∧
              parse_s3_path s = some (bucket, normalize_path raw)))) := by
  intro s
  constructor
  · constructor
    · intro hnone hpre
      unfold parse_s3_path at hnone
      rw [if_pos (by simpa using hpre)] at hnone
      exact absurd hnone (by simp)
    · intro hnp
      unfold parse_s3_path
      rw [if_neg (by simpa using hnp)]
  · intro hpre
    obtain ⟨t, ht⟩ := hpre
    have hdrop : s.drop 5 = t := by
      rw [← ht]
      exact List.drop_left' (by decide)
    refine ⟨t.takeWhile (fun c => c != '/'),
      t.dropWhile (fun c => c != '/'), ?_, ?_, ?_⟩
    · rw [List.append_assoc, List.takeWhile_append_dropWhile]
      exact ht.symm
    · intro c hc
      simpa using List.mem_takeWhile_imp hc
    · cases hdw : t.dropWhile (fun c => c != '/') with
      | nil =>
        left
        refine ⟨rfl, ?_⟩
        simp only [parse_s3_path]
        rw [if_pos (by simpa using (⟨t, ht⟩ : "s3://".data <+: s)), hdrop, hdw]
        simp
      | cons c0 r =>
        right
        have hc0 : c0 = '/' := by
          have hfalse := dropWhile_head_false (fun c => c != '/') t c0 r hdw
          simpa using hfalse
        refine ⟨r, by rw [hc0], ?_⟩
        simp only [parse_s3_path]
        rw [if_pos (by simpa using (⟨t, ht⟩ : "s3://".data <+: s)), hdrop, hdw]
        simp

/-- C9 witness: the theorem applied to a well-formed object-store path with
a bucket, a key and a redundant double slash. -/
theorem parse_s3_path_raises_iff_witness :
    ∃ bucket rest1,
      "s3://bucket/a//b/".data = "s3://".data ++ bucket ++ rest1 ∧
      (∀ c ∈ bucket, c ≠ '/') ∧
      ((rest1 = [] ∧
          parse_s3_path "s3://bucket/a//b/".data =
            some (bucket, normalize_path [])) ∨
       (∃ raw, rest1 = '/' :: raw ∧
          parse_s3_path "s3://bucket/a//b/".data =
            some (bucket, normalize_path raw))) :=
  (parse_s3_path_raises_iff "s3://bucket/a//b/".data).2 (by decide)
